import Mathlib

/-!
# QAccessibleWidget: a shallow embedding

Verification development for `src/widgets/accessible/qaccessiblewidget.cpp`.

Objects are addresses (`ObjId`); the widget tree, the signal graph and the
accessibility interface factory are the external collaborators of the adapter
and are collected in `World`.  A `QString` is the list of its characters.

The embedding is the default build: none of `QT_NO_MENU`, `QT_NO_SHORTCUT`,
`QT_NO_GROUPBOX`, `QT_NO_TOOLTIP`, `QT_NO_WHATSTHIS` is defined.  Signal names are kept as
`QString`s (the conversion `toAscii` is the identity on them), and sizes and positions stay
far below the range of `int`.
-/

namespace QAccessibleWidgetModel

/-- An object address (`QObject *`); the null pointer is `none : Option ObjId`. -/
abbrev ObjId := Nat

/-- A `QString`, as the list of its characters. -/
abbrev QString := List Char

/-- The dynamic class of an object, as far as the casts in the file tell them apart. -/
inductive QClass where
  | QObject
  | QWidget
  | QLabel
  | QGroupBox
  | QFocusFrame
  | QMenu
  | QRubberBand
  | QPushButton
  | QLineEdit
  deriving DecidableEq, Repr

/-- The class relation behind `qobject_cast<T *>`: every class but `QObject` derives from
`QWidget`, and every class derives from `QObject`. -/
def QClass.inherits (c target : QClass) : Bool :=
  match target with
  | .QObject => true
  | .QWidget => decide (c ≠ .QObject)
  | t => decide (c = t)

/-- The values of `Qt::FocusPolicy`. -/
inductive FocusPolicy where
  | NoFocus
  | TabFocus
  | ClickFocus
  | StrongFocus
  | WheelFocus
  deriving DecidableEq, Repr

/-- What the adapter reads of one object of the widget tree. -/
structure QObjectData where
  /-- dynamic class -/
  cls : QClass := .QWidget
  /-- The value of `QObject::parent()` -/
  parent : Option ObjId := none
  /-- The value of `QObject::children()` -/
  children : List ObjId := []
  /-- The value of `QObject::objectName()` -/
  objectName : QString := []
  /-- The value of `QWidget::isWindow()` -/
  isWindow : Bool := false
  /-- The value of `QWidget::isMinimized()` -/
  isMinimized : Bool := false
  /-- The value of `QWidget::windowTitle()` -/
  windowTitle : QString := []
  /-- The value of `QWidget::windowIconText()` -/
  windowIconText : QString := []
  /-- The value of `QWidget::accessibleName()` -/
  accessibleName : QString := []
  /-- The value of `QWidget::accessibleDescription()` -/
  accessibleDescription : QString := []
  /-- The value of `QWidget::toolTip()` -/
  toolTip : QString := []
  /-- The value of `QWidget::whatsThis()` -/
  whatsThis : QString := []
  /-- The value of `QLabel::text()` / button text -/
  text : QString := []
  /-- The value of `QLabel::buddy()` -/
  buddy : Option ObjId := none
  /-- The value of `QGroupBox::title()` -/
  title : QString := []
  /-- The value of `testAttribute(Qt::WA_WState_Visible)` -/
  wstateVisible : Bool := true
  /-- The value of `QWidget::focusPolicy()` -/
  focusPolicy : FocusPolicy := .NoFocus
  /-- The value of `QWidget::hasFocus()` -/
  hasFocus : Bool := false
  /-- The value of `QWidget::isEnabled()` -/
  isEnabled : Bool := true
  /-- The value of `windowFlags() & Qt::WindowSystemMenuHint` -/
  windowSystemMenuHint : Bool := false
  /-- The value of `QWidget::minimumSize()` -/
  minimumSize : Int × Int := (0, 0)
  /-- The value of `QWidget::maximumSize()` -/
  maximumSize : Int × Int := (16777215, 16777215)
  /-- The value of `QWidget::isActiveWindow()` -/
  isActiveWindow : Bool := false
  /-- The value of `QWidget::focusWidget()` -/
  focusWidget : Option ObjId := none

/-- The values of `QAccessible::Role` the development names. -/
inductive Role where
  | Client
  | PushButton
  | StaticText
  | Grouping
  | EditableText
  deriving DecidableEq, Repr

/-- The class `QAccessibleWidgetPrivate`. -/
structure QAccessibleWidgetPrivate where
  role : Role := .Client
  name : QString := []
  description : QString := []
  value : QString := []
  help : QString := []
  accelerator : QString := []
  primarySignals : List QString := []
  asking : Option ObjId := none
  deriving DecidableEq

/-- An adapter: the wrapped object (`object()`) and its private data `d`. -/
structure QAccessibleWidget where
  object : ObjId
  d : QAccessibleWidgetPrivate := {}
  deriving DecidableEq

/-- The external collaborators: widget tree, signal graph, interface factory, and the two
helpers declared outside the file. -/
structure World where
  /-- the object at an address -/
  obj : ObjId → QObjectData
  /-- The value of `QObjectPrivate::receiverList(signal)` of a sender -/
  receiverList : ObjId → QString → List ObjId
  /-- The value of `QObjectPrivate::senderList()` of a receiver -/
  senderList : ObjId → List ObjId
  /-- The value of `QObjectPrivate::isSender(receiver, signal)` of a sender -/
  isSender : ObjId → ObjId → QString → Bool
  /-- The value of `QAccessible::queryAccessibleInterface` -/
  queryAccessibleInterface : ObjId → Option QAccessibleWidget
  /-- The value of `qt_setWindowTitle_helperHelper`, from qwidget.cpp -/
  setWindowTitle_helperHelper : QString → ObjId → QString
  /-- The value of `(QString)QKeySequence(Qt::ALT)` -/
  altKeySequence : QString

/-- The cast `qobject_cast<T *>(o)` on a non-null pointer. -/
def qobject_cast (W : World) (target : QClass) (o : ObjId) : Option ObjId :=
  if (W.obj o).cls.inherits target then some o else none

/-- The value of `QWidget::parentWidget()`: the parent, when it is a widget. -/
def parentWidget (W : World) (w : ObjId) : Option ObjId :=
  match (W.obj w).parent with
  | none => none
  | some p => qobject_cast W .QWidget p

/-- The reserved object name of the rubber band. -/
def qt_rubberband : QString := "qt_rubberband".data

/-- The test of the loop body of `childWidgets` on `list.at(i)`. -/
def childWidgetsKeep (W : World) (o : ObjId) : Bool :=
  match qobject_cast W .QWidget o with
  | none => false
  | some w =>
    !(W.obj w).isWindow
      && (qobject_cast W .QFocusFrame w).isNone
      && (qobject_cast W .QMenu w).isNone
      && decide ((W.obj w).objectName ≠ qt_rubberband)

/-- The loop of `childWidgets`: the rest of `list`, and `widgets` so far. -/
def childWidgetsLoop (W : World) : List ObjId → List ObjId → List ObjId
  | [], widgets => widgets
  | o :: rest, widgets =>
    if childWidgetsKeep W o then childWidgetsLoop W rest (widgets ++ [o])
    else childWidgetsLoop W rest widgets

/-- The function `childWidgets(widget)`. -/
def childWidgets (W : World) (widget : ObjId) : List ObjId :=
  childWidgetsLoop W (W.obj widget).children []

/-- The scan of `QList::indexOf(value)`, at position `i`. -/
def indexOfLoop (value : ObjId) : List ObjId → Nat → Int
  | [], _ => -1
  | x :: rest, i => if x = value then (i : Int) else indexOfLoop value rest (i + 1)

/-- The value of `QList::indexOf(value)`: the first position of `value`, or -1. -/
def QList_indexOf (l : List ObjId) (value : ObjId) : Int :=
  indexOfLoop value l 0

/-- The value of `QAccessibleWidget::child(index)`. -/
def child (W : World) (a : QAccessibleWidget) (index : Int) : Option QAccessibleWidget :=
  let childList := childWidgets W a.object
  if 0 ≤ index ∧ index < (childList.length : Int) then
    match childList[index.toNat]? with
    | some o => W.queryAccessibleInterface o
    | none => none
  else none

/-- The value of `QAccessibleWidget::childCount()`. -/
def childCount (W : World) (a : QAccessibleWidget) : Int :=
  ((childWidgets W a.object).length : Int)

/-- The value of `QAccessibleWidget::indexOfChild(child)`, for a non-null `child`. -/
def indexOfChild (W : World) (a : QAccessibleWidget) (c : QAccessibleWidget) : Int :=
  let cl := childWidgets W a.object
  match qobject_cast W .QWidget c.object with
  | some w => QList_indexOf cl w
  | none => -1

/-! ## The `QString` operations the file calls -/

/-- The scan of `QString::indexOf(ch, from)` over the characters from position `i` on. -/
def indexOfCharLoop (ch : Char) : List Char → Nat → Int
  | [], _ => -1
  | c :: rest, i => if c = ch then (i : Int) else indexOfCharLoop ch rest (i + 1)

/-- Modelled from the spec: `QString::indexOf(ch, from)` is defined in qstring.cpp, outside
the source files; it is the marker search of the left-to-right scan: the first position at or
after `from` holding `ch`, or -1 (a negative `from` counts from the end). -/
def QString_indexOf (text : QString) (ch : Char) (frm : Int) : Int :=
  let start : Nat := if frm < 0 then (frm + text.length).toNat else frm.toNat
  indexOfCharLoop ch (text.drop start) start

/-- Modelled from the spec: `QString::at(i)` is defined in qstring.h, outside the source
files; it is the character at position `i`, which the callers keep in range
(the value out of range is a placeholder that no call of this file reaches). -/
def QString_at (text : QString) (i : Int) : Char :=
  text.getD i.toNat (Char.ofNat 0)

/-- Modelled from the spec: `QString::remove(position, n)` is defined in qstring.cpp, outside
the source files; it is the removal of the marker: `n` characters from `position` on are
dropped, and a position out of range changes nothing. -/
def QString_remove (text : QString) (position : Int) (n : Nat) : QString :=
  let pos : Int := if position < 0 then position + text.length else position
  if 0 ≤ pos ∧ pos < text.length then text.take pos.toNat ++ text.drop (pos.toNat + n)
  else text

/-- The scan of `QString::replace(before, after)` for a non-empty `before`: `skip` characters
of a match are still to be passed over. -/
def replaceLoop (before after : QString) : Nat → List Char → List Char
  | _, [] => []
  | skip + 1, _ :: rest => replaceLoop before after skip rest
  | 0, c :: rest =>
    if before.isPrefixOf (c :: rest) then after ++ replaceLoop before after (before.length - 1) rest
    else c :: replaceLoop before after 0 rest

/-- Modelled from the spec: `QString::replace(before, after)` is defined in qstring.cpp,
outside the source files; it is the collapse of the doubled markers: every occurrence of
`before`, found left to right without overlap, becomes `after` (an empty `before` matches
before every character and at the end). -/
def QString_replace (text before after : QString) : QString :=
  if before = [] then after ++ text.flatMap (fun c => c :: after)
  else replaceLoop before after 0 text

/-! ## Accelerator markers -/

/-- The `while` loop of `qt_accAmpIndex`, entered with the value `fa`; every iteration uses
one unit of `fuel`, and `none` means the fuel ran out. -/
def ampLoop (text : QString) : Nat → Int → Option Int
  | 0, _ => none
  | fuel + 1, fa =>
    let fa1 := QString_indexOf text '&' fa
    if fa1 = -1 then some (-1)
    else
      let fa2 := fa1 + 1
      if fa2 < (text.length : Int) then
        if QString_at text fa2 = '&' then ampLoop text fuel (fa2 + 1)
        else some (fa2 - 1)
      else ampLoop text fuel fa2

/-- The function `qt_accAmpIndex(text)`, with the number of loop iterations bounded by
`fuel`. -/
def qt_accAmpIndexFuel (fuel : Nat) (text : QString) : Option Int :=
  if text.isEmpty then some (-1)
  else ampLoop text fuel 0

/-- The function `qt_accAmpIndex(text)`: the loop runs at most `text.length + 1` times
(`qt_accAmpIndexFuel_enough`). -/
def qt_accAmpIndex (text : QString) : Int :=
  (qt_accAmpIndexFuel (text.length + 1) text).getD (-1)

/-- The literal `"&&"`. -/
def ampAmp : QString := "&&".data

/-- The literal `"&"`. -/
def amp : QString := "&".data

/-- The function `qt_accStripAmp(text)`. -/
def qt_accStripAmp (text : QString) : QString :=
  let newText := text
  let ampIndex := qt_accAmpIndex newText
  let newText := if ampIndex ≠ -1 then QString_remove newText ampIndex 1 else newText
  QString_replace newText ampAmp amp

/-- The function `qt_accHotKey(text)`. -/
def qt_accHotKey (W : World) (text : QString) : QString :=
  let ampIndex := qt_accAmpIndex text
  if ampIndex ≠ -1 then W.altKeySequence ++ [QString_at text (ampIndex + 1)]
  else []

/-- The loop of `buddyString` over `ol`: the text of the first label whose buddy is
`widget`. -/
def buddyLoop (W : World) (widget : ObjId) : List ObjId → Option QString
  | [] => none
  | o :: rest =>
    match qobject_cast W .QLabel o with
    | some label =>
      if (W.obj label).buddy = some widget then some (W.obj label).text
      else buddyLoop W widget rest
    | none => buddyLoop W widget rest

/-- The function `buddyString(widget)`. -/
def buddyString (W : World) (widget : Option ObjId) : QString :=
  match widget with
  | none => []
  | some w =>
    match parentWidget W w with
    | none => []
    | some parent =>
      match buddyLoop W w (W.obj parent).children with
      | some s => s
      | none =>
        match qobject_cast W .QGroupBox parent with
        | some groupbox => (W.obj groupbox).title
        | none => []

/-- The values of `QAccessible::Text`. -/
inductive Text where
  | Name
  | Description
  | Value
  | Help
  | Accelerator
  | UserText
  deriving DecidableEq, Repr

/-- The value of `QAccessibleWidget::text(t)`. -/
def text (W : World) (a : QAccessibleWidget) (t : Text) : QString :=
  let w := W.obj a.object
  match t with
  | .Name =>
    if a.d.name ≠ [] then a.d.name
    else if w.accessibleName ≠ [] then w.accessibleName
    else if w.isWindow then
      if w.isMinimized then W.setWindowTitle_helperHelper w.windowIconText a.object
      else W.setWindowTitle_helperHelper w.windowTitle a.object
    else qt_accStripAmp (buddyString W (some a.object))
  | .Description =>
    if a.d.description ≠ [] then a.d.description
    else if w.accessibleDescription ≠ [] then w.accessibleDescription
    else w.toolTip
  | .Help =>
    if a.d.help ≠ [] then a.d.help
    else w.whatsThis
  | .Accelerator =>
    if a.d.accelerator ≠ [] then a.d.accelerator
    else qt_accHotKey W (buddyString W (some a.object))
  | .Value => a.d.value
  | .UserText => []

/-- The flags of `QAccessible::State` that `state()` sets; a fresh state has all flags
cleared. -/
structure State where
  invisible : Bool := false
  focusable : Bool := false
  focused : Bool := false
  disabled : Bool := false
  movable : Bool := false
  sizeable : Bool := false
  active : Bool := false
  deriving DecidableEq, Repr

/-- The value of `QAccessibleWidget::state()`. -/
def state (W : World) (a : QAccessibleWidget) : State :=
  let w := W.obj a.object
  let state : State := {}
  let state := if w.wstateVisible = false then { state with invisible := true } else state
  let state := if w.focusPolicy ≠ .NoFocus then { state with focusable := true } else state
  let state := if w.hasFocus then { state with focused := true } else state
  let state := if !w.isEnabled then { state with disabled := true } else state
  if w.isWindow then
    let state := if w.windowSystemMenuHint then { state with movable := true } else state
    let state := if w.minimumSize ≠ w.maximumSize then { state with sizeable := true } else state
    let state := if w.isActiveWindow then { state with active := true } else state
    state
  else state

/-- The function `isAncestor(obj, child)`; every iteration of the loop uses one unit of
`fuel`, and `none` means the fuel ran out before the parent chain ended. -/
def isAncestor (W : World) (obj : ObjId) : Nat → Option ObjId → Option Bool
  | 0, _ => none
  | _ + 1, none => some false
  | fuel + 1, some child =>
    if child = obj then some true
    else isAncestor W obj fuel (W.obj child).parent

/-- `QAccessibleWidget::focusChild()`, with the loop of `isAncestor` bounded by `fuel`;
the outer `none` means the fuel ran out, the inner one is the null interface. -/
def focusChild (W : World) (fuel : Nat) (a : QAccessibleWidget) :
    Option (Option QAccessibleWidget) :=
  if (W.obj a.object).hasFocus then some (W.queryAccessibleInterface a.object)
  else
    match (W.obj a.object).focusWidget with
    | none => some none
    | some fw =>
      match isAncestor W a.object fuel (some fw) with
      | none => none
      | some anc =>
        if anc || decide (fw = a.object) then some (W.queryAccessibleInterface fw)
        else some none

/-! ## Relations -/

/-- The values of `QAccessible::Relation` that `relations` computes. -/
inductive Relation where
  | Label
  | Controller
  | Controlled
  deriving DecidableEq, Repr

/-- The argument `match` of `relations`: which of the bits `match & QAccessible::Label`,
`match & QAccessible::Controller`, `match & QAccessible::Controlled` are set. -/
structure RelationFlags where
  label : Bool := false
  controller : Bool := false
  controlled : Bool := false
  deriving DecidableEq, Repr

/-- An entry of the result of `relations`; the interface of an entry may be null. -/
abbrev RelationEntry := Option QAccessibleWidget × Relation

/-- The loop over `kids` of the `Label` block. -/
def labelLoop (W : World) (widget : ObjId) : List ObjId → List RelationEntry → List RelationEntry
  | [], rels => rels
  | kid :: rest, rels =>
    match qobject_cast W .QLabel kid with
    | some labelSibling =>
      if (W.obj labelSibling).buddy = some widget then
        labelLoop W widget rest (rels ++ [(W.queryAccessibleInterface labelSibling, .Label)])
      else labelLoop W widget rest rels
    | none => labelLoop W widget rest rels

/-- The `Label` block of `relations`. -/
def relationsLabel (W : World) (a : QAccessibleWidget) (rels : List RelationEntry) :
    List RelationEntry :=
  match parentWidget W a.object with
  | none => rels
  | some parent =>
    let rels := labelLoop W a.object (childWidgets W parent) rels
    match qobject_cast W .QGroupBox parent with
    | some groupbox =>
      if (W.obj groupbox).title ≠ [] then
        rels ++ [(W.queryAccessibleInterface groupbox, .Label)]
      else rels
    | none => rels

/-- The loop over `senderPrimarySignals` of the `Controller` block. -/
def senderSignalLoop (W : World) (a : QAccessibleWidget) (sender : ObjId)
    (iface : QAccessibleWidget) : List QString → List RelationEntry → List RelationEntry
  | [], rels => rels
  | strSignal :: rest, rels =>
    if W.isSender sender a.object strSignal then
      senderSignalLoop W a sender iface rest (rels ++ [(some iface, .Controller)])
    else senderSignalLoop W a sender iface rest rels

/-- The loop over `senderList` of the `Controller` block; `none` is the read through a null
interface of a sender. -/
def senderLoop (W : World) (a : QAccessibleWidget) :
    List ObjId → List RelationEntry → Option (List RelationEntry)
  | [], rels => some rels
  | sender :: rest, rels =>
    if (W.obj sender).cls.inherits .QWidget && decide (sender ≠ a.object) then
      match W.queryAccessibleInterface sender with
      | none => none
      | some iface =>
        senderLoop W a rest (senderSignalLoop W a sender iface iface.d.primarySignals rels)
    else senderLoop W a rest rels

/-- The first loop of the `Controlled` block: the receivers of every primary signal are
appended to `allReceivers`. -/
def receiversLoop (W : World) (a : QAccessibleWidget) : List QString → List ObjId → List ObjId
  | [], allReceivers => allReceivers
  | sig :: rest, allReceivers =>
    receiversLoop W a rest (allReceivers ++ W.receiverList a.object sig)

/-- The value of `QList::removeAll(value)`. -/
def QList_removeAll (l : List ObjId) (value : ObjId) : List ObjId :=
  l.filter (fun x => decide (x ≠ value))

/-- The second loop of the `Controlled` block. -/
def controlledLoop (W : World) : List ObjId → List RelationEntry → List RelationEntry
  | [], rels => rels
  | r :: rest, rels =>
    match W.queryAccessibleInterface r with
    | some iface => controlledLoop W rest (rels ++ [(some iface, .Controlled)])
    | none => controlledLoop W rest rels

/-- The `Controlled` block of `relations`. -/
def relationsControlled (W : World) (a : QAccessibleWidget) (rels : List RelationEntry) :
    List RelationEntry :=
  let allReceivers := receiversLoop W a a.d.primarySignals []
  let allReceivers := QList_removeAll allReceivers a.object
  controlledLoop W allReceivers rels

/-- `QAccessibleWidget::relations(match)`; `none` is the read through a null interface in
the `Controller` block. -/
def relations (W : World) (a : QAccessibleWidget) (flags : RelationFlags) :
    Option (List RelationEntry) :=
  let rels : List RelationEntry := []
  let rels := if flags.label then relationsLabel W a rels else rels
  let rels? := if flags.controller then senderLoop W a (W.senderList a.object) rels else some rels
  match rels? with
  | none => none
  | some rels => some (if flags.controlled then relationsControlled W a rels else rels)

/-- The argument `QAccessible::Controlled` of `relations`. -/
def RelationFlags.Controlled : RelationFlags := { controlled := true }

/-! ## Worlds used by the examples -/

/-- A world without connections, with the factory that makes a fresh adapter for every
object, the helper that leaves a title unchanged, and `Alt+` as the text of the modifier. -/
def plainWorld (obj : ObjId → QObjectData) : World where
  obj := obj
  receiverList := fun _ _ => []
  senderList := fun _ => []
  isSender := fun _ _ _ => false
  queryAccessibleInterface := fun o => some { object := o }
  setWindowTitle_helperHelper := fun s _ => s
  altKeySequence := "Alt+".data

/-- A form (object 0) with a label (object 1, text `&Name`, buddy 2) and a line edit
(object 2). -/
def formWorld : World :=
  plainWorld fun o =>
    match o with
    | 0 => { children := [1, 2], isWindow := true }
    | 1 => { cls := .QLabel, parent := some 0, text := "&Name".data, buddy := some 2 }
    | 2 => { cls := .QLineEdit, parent := some 0, focusPolicy := .StrongFocus }
    | _ => { cls := .QObject }


/-! ## Specification-side definitions -/

/-- An eligible child, in the words of the specification: a widget that is not a top-level
window, not a focus frame, not a popup menu and not named `qt_rubberband`. -/
def eligibleChild (W : World) (o : ObjId) : Bool :=
  (W.obj o).cls.inherits .QWidget
    && !(W.obj o).isWindow
    && !(W.obj o).cls.inherits .QFocusFrame
    && !(W.obj o).cls.inherits .QMenu
    && decide ((W.obj o).objectName ≠ "qt_rubberband".data)

/-- The eligible children of a widget, in child order. -/
def eligibleChildren (W : World) (widget : ObjId) : List ObjId :=
  (W.obj widget).children.filter (eligibleChild W)

/-- Accelerator-marker parsing, in the words of the specification: the text is read left to
right from offset `i`; a doubled marker is skipped and the reading resumes two characters
later; the first lone marker with a character after it is the accelerator position; -1
when there is none. -/
def ampIndexSpec : QString → Nat → Int
  | [], _ => -1
  | [_], _ => -1
  | c :: d :: rest, i =>
    if c = '&' then
      if d = '&' then ampIndexSpec rest (i + 2) else (i : Int)
    else ampIndexSpec (d :: rest) (i + 1)


/-- Stripping, in the words of the specification: the text is read left to right; a doubled
marker is an escaped literal and becomes one marker character; the first lone marker with a
character after it is the accelerator marker and is left out; everything else is kept.
The flag `removed` tells that the accelerator marker has been met already. -/
def stripSpec : Bool → QString → QString
  | _, [] => []
  | _, [c] => [c]
  | removed, c :: d :: rest =>
    if c = '&' then
      if d = '&' then '&' :: stripSpec removed rest
      else if removed then '&' :: stripSpec true (d :: rest)
      else stripSpec true (d :: rest)
    else c :: stripSpec removed (d :: rest)


/-- A group box (object 0, title `&Options`) holding a line edit (object 1) and no label. -/
def groupWorld : World :=
  plainWorld fun o =>
    match o with
    | 0 => { cls := .QGroupBox, children := [1], title := "&Options".data }
    | 1 => { cls := .QLineEdit, parent := some 0, focusPolicy := .StrongFocus }
    | _ => { cls := .QObject }


/-- The parent chain of `child` reaches `obj`: `obj` is `child` itself, its parent, the
parent of its parent, and so on. -/
inductive Reaches (W : World) : ObjId → ObjId → Prop where
  | self (o : ObjId) : Reaches W o o
  | step {c p o : ObjId} : (W.obj c).parent = some p → Reaches W p o → Reaches W c o

/-- The parent chain of an object ends: it has `n` objects, the last one without parent. -/
inductive Rooted (W : World) : ObjId → Nat → Prop where
  | root {c : ObjId} : (W.obj c).parent = none → Rooted W c 1
  | step {c p : ObjId} {n : Nat} : (W.obj c).parent = some p → Rooted W p n →
      Rooted W c (n + 1)

/-- A push button (object 0) whose signals `clicked()` and `pressed()` are both connected to
a line edit (object 1). -/
def signalWorld : World :=
  { plainWorld fun o =>
      match o with
      | 0 => { cls := .QPushButton, focusPolicy := .StrongFocus }
      | 1 => { cls := .QLineEdit, focusPolicy := .StrongFocus }
      | _ => { cls := .QObject } with
    receiverList := fun sender sig =>
      if sender = 0 ∧ (sig = "clicked()".data ∨ sig = "pressed()".data) then [1] else []
    senderList := fun receiver => if receiver = 1 then [0, 0] else []
    isSender := fun sender receiver sig =>
      decide (sender = 0 ∧ receiver = 1 ∧ (sig = "clicked()".data ∨ sig = "pressed()".data)) }

/-- The adapter of the push button of `signalWorld`, with both signals registered as
controlling signals. -/
def signalButton : QAccessibleWidget :=
  { object := 0, d := { role := .PushButton,
                        primarySignals := ["clicked()".data, "pressed()".data] } }

/-- A window (object 0) with a push button (object 1) that is enabled, focusable, not
focused and not shown. -/
def hiddenButtonWorld : World :=
  plainWorld fun o =>
    match o with
    | 0 => { children := [1], isWindow := true }
    | 1 => { cls := .QPushButton, parent := some 0, focusPolicy := .StrongFocus,
             isEnabled := true, hasFocus := false, wstateVisible := false }
    | _ => { cls := .QObject }

/-- A form (object 0) with a label (object 1, text `&Name`, buddy 2) and a line edit
(object 2) that is not a window and has the window title `Doc`. -/
def titledChildWorld : World :=
  plainWorld fun o =>
    match o with
    | 0 => { children := [1, 2], isWindow := true }
    | 1 => { cls := .QLabel, parent := some 0, text := "&Name".data, buddy := some 2 }
    | 2 => { cls := .QLineEdit, parent := some 0, windowTitle := "Doc".data,
             isWindow := false, isMinimized := false }
    | _ => { cls := .QObject }

/-- Two windows (objects 0 and 2) with one child each (objects 1 and 3); the focus widget
recorded in window 0 is object 3, a child of the other window. -/
def focusWorld : World :=
  plainWorld fun o =>
    match o with
    | 0 => { children := [1], isWindow := true, focusWidget := some 3 }
    | 1 => { cls := .QLineEdit, parent := some 0 }
    | 2 => { children := [3], isWindow := true, focusWidget := some 3 }
    | 3 => { cls := .QLineEdit, parent := some 2 }
    | _ => { cls := .QObject }


/-- `QAccessibleWidget::child(index)`, together with the objects handed to
`QAccessible::queryAccessibleInterface` during the call, in call order. -/
def childQueries (W : World) (a : QAccessibleWidget) (index : Int) :
    Option QAccessibleWidget × List ObjId :=
  let childList := childWidgets W a.object
  if 0 ≤ index ∧ index < (childList.length : Int) then
    match childList[index.toNat]? with
    | some o => (W.queryAccessibleInterface o, [o])
    | none => (none, [])
  else (none, [])


/-- A main window (object 0) with a label (object 1, text `&Name`, buddy 2) and a tool
window (object 2) that is a window with the window title `Report` and the icon text `Icon`,
and is not minimized; the window-title helper appends ` - Editor` to a title. -/
def toolWindowWorld : World :=
  { plainWorld fun o =>
      match o with
      | 0 => { children := [1, 2], isWindow := true }
      | 1 => { cls := .QLabel, parent := some 0, text := "&Name".data, buddy := some 2 }
      | 2 => { parent := some 0, isWindow := true, isMinimized := false,
               windowTitle := "Report".data, windowIconText := "Icon".data }
      | _ => { cls := .QObject } with
    setWindowTitle_helperHelper := fun title _ => title ++ " - Editor".data }

/-! ## Children -/

theorem childWidgetsKeep_eq (W : World) (o : ObjId) :
    childWidgetsKeep W o = eligibleChild W o := by
  unfold childWidgetsKeep eligibleChild qobject_cast qt_rubberband
  cases h : (W.obj o).cls.inherits .QWidget <;> simp [h]
  cases (W.obj o).cls.inherits .QFocusFrame <;> cases (W.obj o).cls.inherits .QMenu <;> simp

theorem childWidgetsLoop_eq (W : World) (l widgets : List ObjId) :
    childWidgetsLoop W l widgets = widgets ++ l.filter (eligibleChild W) := by
  induction l generalizing widgets with
  | nil => simp [childWidgetsLoop]
  | cons o rest ih =>
    unfold childWidgetsLoop
    rw [childWidgetsKeep_eq]
    cases h : eligibleChild W o <;> simp [h, ih]

theorem childWidgets_eq (W : World) (widget : ObjId) :
    childWidgets W widget = eligibleChildren W widget := by
  simp [childWidgets, eligibleChildren, childWidgetsLoop_eq]

theorem indexOfLoop_nodup (value : ObjId) (l : List ObjId) (i k : Nat)
    (hn : l.Nodup) (hi : l[i]? = some value) :
    indexOfLoop value l k = ((k + i : Nat) : Int) := by
  induction l generalizing i k with
  | nil => simp at hi
  | cons x rest ih =>
    rw [List.nodup_cons] at hn
    cases i with
    | zero =>
      simp at hi
      simp [indexOfLoop, hi]
    | succ j =>
      simp at hi
      have hx : x ≠ value := by
        intro hxv
        exact hn.1 (hxv ▸ List.getElem?_mem hi)
      simp only [indexOfLoop, hx, if_false]
      rw [ih j (k + 1) hn.2 hi]
      congr 1
      omega

theorem child_of_index (W : World) (a : QAccessibleWidget) (index : Int)
    (h0 : 0 ≤ index) (h1 : index < childCount W a) :
    ∃ o, (eligibleChildren W a.object)[index.toNat]? = some o ∧
      child W a index = W.queryAccessibleInterface o ∧
      o ∈ (W.obj a.object).children ∧ eligibleChild W o = true := by
  simp only [childCount, childWidgets_eq] at h1
  have hlt : index.toNat < (eligibleChildren W a.object).length := by omega
  have hm : (eligibleChildren W a.object)[index.toNat] ∈ eligibleChildren W a.object :=
    List.getElem_mem hlt
  refine ⟨(eligibleChildren W a.object)[index.toNat], List.getElem?_eq_getElem hlt, ?_,
    (List.mem_filter.1 hm).1, (List.mem_filter.1 hm).2⟩
  simp only [child, childWidgets_eq]
  rw [if_pos ⟨h0, h1⟩, List.getElem?_eq_getElem hlt]

/-- C10: `childCount()` is the number of eligible children (direct child objects that are
widgets, not top-level windows, not focus frames, not popup menus and not named
`qt_rubberband`), and `child(index)` for an index in range is what the factory gives for the
`index`-th eligible child, in child order; that child is a child of the widget and
eligible. -/
theorem childCount_child_eligible (W : World) (a : QAccessibleWidget) :
    childCount W a = ((eligibleChildren W a.object).length : Int) ∧
    ∀ index : Int, 0 ≤ index → index < childCount W a →
      ∃ o, (eligibleChildren W a.object)[index.toNat]? = some o ∧
        child W a index = W.queryAccessibleInterface o ∧
        o ∈ (W.obj a.object).children ∧ eligibleChild W o = true := by
  constructor
  · unfold childCount
    rw [childWidgets_eq]
  · intro index h0 h1
    exact child_of_index W a index h0 h1

/-- C10, on the form: the form has two eligible children, and `child(1)` is the adapter
of the line edit. -/
theorem childCount_child_eligible_witness :
    childCount formWorld { object := 0 } = 2 ∧
    ∃ o, (eligibleChildren formWorld 0)[(1 : Int).toNat]? = some o ∧
      child formWorld { object := 0 } 1 = formWorld.queryAccessibleInterface o ∧
      o ∈ (formWorld.obj 0).children ∧ eligibleChild formWorld o = true :=
  ⟨by decide,
   (childCount_child_eligible formWorld { object := 0 }).2 1 (by decide) (by decide)⟩

/-- C1: round trip. In a widget tree where no object occurs twice among the children of
the wrapped widget, and with a factory that gives every eligible child an interface whose
`object()` is that child, `indexOfChild(child(index))` is `index` for every index with
`0 <= index < childCount()`. -/
theorem indexOfChild_child (W : World) (a : QAccessibleWidget) (index : Int)
    (hnodup : (W.obj a.object).children.Nodup)
    (hfactory : ∀ o ∈ childWidgets W a.object,
      ∃ c, W.queryAccessibleInterface o = some c ∧ c.object = o)
    (h0 : 0 ≤ index) (h1 : index < childCount W a) :
    ∃ c, child W a index = some c ∧ indexOfChild W a c = index := by
  obtain ⟨o, ho, hchild, _, helig⟩ := child_of_index W a index h0 h1
  have hmem : o ∈ childWidgets W a.object := by
    rw [childWidgets_eq]
    exact List.getElem?_mem ho
  obtain ⟨c, hc, hobj⟩ := hfactory o hmem
  refine ⟨c, by rw [hchild, hc], ?_⟩
  have hw : (W.obj o).cls.inherits .QWidget = true := by
    unfold eligibleChild at helig
    simp only [Bool.and_eq_true] at helig
    exact helig.1.1.1.1
  have hnd : (eligibleChildren W a.object).Nodup := hnodup.filter _
  simp only [indexOfChild, hobj, qobject_cast, hw, if_true, QList_indexOf, childWidgets_eq]
  rw [indexOfLoop_nodup o _ index.toNat 0 hnd ho]
  omega

/-- C1, on the form: `indexOfChild(child(1))` is 1. -/
theorem indexOfChild_child_witness :
    ∃ c, child formWorld { object := 0 } 1 = some c ∧
      indexOfChild formWorld { object := 0 } c = 1 :=
  indexOfChild_child formWorld { object := 0 } 1 (by decide)
    (by intro o ho; exact ⟨{ object := o }, rfl, rfl⟩) (by decide) (by decide)

/-! ## Accelerator-marker parsing -/

theorem QString_indexOf_nat (text : QString) (ch : Char) (n : Nat) :
    QString_indexOf text ch (n : Int) = indexOfCharLoop ch (text.drop n) n := by
  have h : ¬ ((n : Int) < 0) := by omega
  simp [QString_indexOf, h]

theorem drop_succ_of_drop_cons {text : QString} {n : Nat} {c : Char} {rest : List Char}
    (h : text.drop n = c :: rest) : text.drop (n + 1) = rest := by
  have : text.drop (n + 1) = (text.drop n).drop 1 := by
    rw [List.drop_drop]
  rw [this, h]
  rfl

theorem getD_of_drop_cons {text : QString} {n : Nat} {c : Char} {rest : List Char}
    (h : text.drop n = c :: rest) (d : Char) : text.getD n d = c := by
  have h1 : (text.drop n)[0]? = some c := by rw [h]; simp
  rw [List.getElem?_drop] at h1
  simp only [Nat.add_zero] at h1
  simp [List.getD, h1]

theorem length_of_drop_cons {text : QString} {n : Nat} {c : Char} {rest : List Char}
    (h : text.drop n = c :: rest) : text.length = n + 1 + rest.length := by
  have h1 : (text.drop n).length = rest.length + 1 := by rw [h]; rfl
  rw [List.length_drop] at h1
  omega

theorem ampLoop_congr (text : QString) (fuel : Nat) (fa fb : Int)
    (h : QString_indexOf text '&' fa = QString_indexOf text '&' fb) :
    ampLoop text fuel fa = ampLoop text fuel fb := by
  cases fuel with
  | zero => rfl
  | succ n => simp only [ampLoop, h]

theorem ampLoop_eq_spec (text : QString) (m : Nat) :
    ∀ (fa fuel : Nat), text.length - fa ≤ m → fa ≤ text.length →
      text.length + 1 ≤ fa + fuel →
      ampLoop text fuel (fa : Int) = some (ampIndexSpec (text.drop fa) fa) := by
  induction m with
  | zero =>
    intro fa fuel hm hfa hfuel
    have hlen : fa = text.length := by omega
    have hdrop : text.drop fa = [] := by rw [hlen]; exact List.drop_length text
    obtain ⟨k, rfl⟩ : ∃ k, fuel = k + 1 := ⟨fuel - 1, by omega⟩
    simp [ampLoop, QString_indexOf_nat, hdrop, indexOfCharLoop, ampIndexSpec]
  | succ m ih =>
    intro fa fuel hm hfa hfuel
    obtain ⟨k, rfl⟩ : ∃ k, fuel = k + 1 := ⟨fuel - 1, by omega⟩
    cases hdrop : text.drop fa with
    | nil =>
      simp [ampLoop, QString_indexOf_nat, hdrop, indexOfCharLoop, ampIndexSpec]
    | cons c tl =>
      have hlen := length_of_drop_cons hdrop
      have hdrop1 := drop_succ_of_drop_cons hdrop
      by_cases hc : c = '&'
      · subst hc
        have hidx : QString_indexOf text '&' (fa : Int) = (fa : Int) := by
          rw [QString_indexOf_nat, hdrop]
          simp [indexOfCharLoop]
        have hne : ¬ ((fa : Int) = -1) := by omega
        cases tl with
        | nil =>
          have hnot : ¬ ((fa : Int) + 1 < (text.length : Int)) := by
            simp only [List.length_nil] at hlen
            omega
          have hrec := ih (fa + 1) k (by omega) (by omega) (by omega)
          rw [hdrop1] at hrec
          simp only [ampLoop, hidx, hne, if_false, hnot]
          rw [show ((fa : Int) + 1) = ((fa + 1 : Nat) : Int) by push_cast; rfl, hrec]
          simp [ampIndexSpec]
        | cons d rest =>
          have hlt : (fa : Int) + 1 < (text.length : Int) := by
            simp only [List.length_cons] at hlen
            omega
          have hat : QString_at text ((fa : Int) + 1) = d := by
            unfold QString_at
            rw [show ((fa : Int) + 1).toNat = fa + 1 by omega]
            exact getD_of_drop_cons hdrop1 _
          simp only [ampLoop, hidx, hne, if_false, hlt, if_true, hat]
          by_cases hd : d = '&'
          · subst hd
            have hdrop2 := drop_succ_of_drop_cons hdrop1
            simp only [List.length_cons] at hlen
            have hrec := ih (fa + 2) k (by omega) (by omega) (by omega)
            rw [hdrop2] at hrec
            simp only [if_true]
            rw [show ((fa : Int) + 1 + 1) = ((fa + 2 : Nat) : Int) by push_cast; ring, hrec]
            simp [ampIndexSpec]
          · simp [hd, ampIndexSpec]
      · have hidx : QString_indexOf text '&' (fa : Int)
            = QString_indexOf text '&' ((fa + 1 : Nat) : Int) := by
          rw [QString_indexOf_nat, QString_indexOf_nat, hdrop, hdrop1]
          simp [indexOfCharLoop, hc]
        rw [ampLoop_congr text (k + 1) _ _ hidx]
        have hrec := ih (fa + 1) (k + 1) (by omega) (by omega) (by omega)
        rw [hrec, hdrop1]
        cases tl with
        | nil => simp [ampIndexSpec]
        | cons d rest => simp [ampIndexSpec, hc]

theorem qt_accAmpIndexFuel_enough (text : QString) (fuel : Nat)
    (h : text.length + 1 ≤ fuel) :
    qt_accAmpIndexFuel fuel text = some (ampIndexSpec text 0) := by
  unfold qt_accAmpIndexFuel
  cases text with
  | nil => simp [ampIndexSpec]
  | cons c tl =>
    have := ampLoop_eq_spec (c :: tl) (c :: tl).length 0 fuel (by omega) (by omega) (by omega)
    simpa using this

theorem qt_accAmpIndex_eq_spec (text : QString) :
    qt_accAmpIndex text = ampIndexSpec text 0 := by
  simp [qt_accAmpIndex, qt_accAmpIndexFuel_enough text (text.length + 1) (le_refl _)]

theorem list_two_step {P : List Char → Prop} (h0 : P []) (h1 : ∀ c, P [c])
    (h2 : ∀ c d rest, P rest → P (d :: rest) → P (c :: d :: rest)) : ∀ l, P l := by
  have key : ∀ l, P l ∧ ∀ c, P (c :: l) := by
    intro l
    induction l with
    | nil => exact ⟨h0, h1⟩
    | cons d rest ih => exact ⟨ih.2 d, fun c => h2 c d rest ih.1 (ih.2 d)⟩
  exact fun l => (key l).1

theorem ampIndexSpec_cases : ∀ (text : QString) (i : Nat),
    (ampIndexSpec text i = -1 ∧ ampIndexSpec text 0 = -1) ∨
    ∃ p : Nat, ampIndexSpec text i = ((i + p : Nat) : Int) ∧ ampIndexSpec text 0 = (p : Int) ∧
      text[p]? = some '&' ∧ ∃ d, text[p + 1]? = some d ∧ d ≠ '&' := by
  intro text
  induction text using list_two_step with
  | h0 => intro i; left; simp [ampIndexSpec]
  | h1 c => intro i; left; simp [ampIndexSpec]
  | h2 c d rest ih1 ih2 =>
    intro i
    by_cases hc : c = '&'
    · subst hc
      by_cases hd : d = '&'
      · subst hd
        simp only [ampIndexSpec, if_true]
        rcases ih1 (i + 2) with ⟨h, h0⟩ | ⟨p, h, h0, hp, hq⟩
        · rcases ih1 2 with ⟨h2, _⟩ | ⟨q, _, hq0, _, _⟩
          · left; exact ⟨h, h2⟩
          · rw [h0] at hq0; omega
        · rcases ih1 2 with ⟨_, h20⟩ | ⟨q, hq2, hq0, _, _⟩
          · rw [h0] at h20; omega
          · right
            have hpq : q = p := by rw [h0] at hq0; omega
            subst hpq
            refine ⟨q + 2, ?_, ?_, ?_, ?_⟩
            · rw [h]; congr 1; omega
            · rw [hq2]; congr 1; omega
            · simpa using hp
            · simpa using hq
      · right
        exact ⟨0, by simp [ampIndexSpec, hd], by simp [ampIndexSpec, hd], by simp,
          d, by simp, hd⟩
    · have e : ∀ j, ampIndexSpec (c :: d :: rest) j = ampIndexSpec (d :: rest) (j + 1) := by
        intro j; simp [ampIndexSpec, hc]
      rw [e i, e 0]
      rcases ih2 (i + 1) with ⟨h, h0⟩ | ⟨p, h, h0, hp, hq⟩
      · rcases ih2 1 with ⟨h2, _⟩ | ⟨q, _, hq0, _, _⟩
        · left; exact ⟨h, h2⟩
        · rw [h0] at hq0; omega
      · rcases ih2 1 with ⟨_, h20⟩ | ⟨q, hq2, hq0, _, _⟩
        · rw [h0] at h20; omega
        · right
          have hpq : q = p := by rw [h0] at hq0; omega
          subst hpq
          refine ⟨q + 1, ?_, ?_, ?_, ?_⟩
          · rw [h]; congr 1; omega
          · rw [hq2]; congr 1; omega
          · simpa using hp
          · simpa using hq

/-- C2: accelerator-marker parsing. With fuel for `text.length + 1` iterations the loop of
`qt_accAmpIndex` ends, and its result is the one of the left-to-right reading of the
specification (`ampIndexSpec`): doubled markers are skipped two characters at a time and the
offset of the first lone `&` with a character after it is returned, -1 when there is none.
A result other than -1 is the offset of a `&` followed by a character other than `&`.
The empty text gives -1, and `&File` gives 0, the position right before `F`. -/
theorem qt_accAmpIndex_marker (text : QString) :
    (∀ fuel, text.length + 1 ≤ fuel →
      qt_accAmpIndexFuel fuel text = some (qt_accAmpIndex text)) ∧
    qt_accAmpIndex text = ampIndexSpec text 0 ∧
    (qt_accAmpIndex text = -1 ∨
      ∃ p : Nat, qt_accAmpIndex text = (p : Int) ∧ text[p]? = some '&' ∧
        ∃ d, text[p + 1]? = some d ∧ d ≠ '&') ∧
    qt_accAmpIndex [] = -1 ∧
    qt_accAmpIndex "&File".data = 0 ∧ "&File".data[1]? = some 'F' := by
  refine ⟨?_, qt_accAmpIndex_eq_spec text, ?_, by decide, by decide, by decide⟩
  · intro fuel h
    rw [qt_accAmpIndexFuel_enough text fuel h, qt_accAmpIndex_eq_spec]
  · rw [qt_accAmpIndex_eq_spec]
    rcases ampIndexSpec_cases text 0 with ⟨h, _⟩ | ⟨p, _, h0, hp, hq⟩
    · left; exact h
    · right; exact ⟨p, h0, hp, hq⟩

/-- C2, on `a&&b&c`: six iterations are enough, and the marker is at offset 4. -/
theorem qt_accAmpIndex_marker_witness :
    qt_accAmpIndexFuel 7 "a&&b&c".data = some (qt_accAmpIndex "a&&b&c".data) ∧
    qt_accAmpIndex "a&&b&c".data = 4 :=
  ⟨(qt_accAmpIndex_marker "a&&b&c".data).1 7 (by decide), by decide⟩

/-! ## Stripping -/

theorem ampAmp_eq : ampAmp = ['&', '&'] := rfl

theorem amp_eq : amp = ['&'] := rfl

theorem QString_replace_ampAmp (t : QString) :
    QString_replace t ampAmp amp = replaceLoop ampAmp amp 0 t := by
  simp [QString_replace, ampAmp_eq]

theorem replaceLoop_pair (rest : QString) :
    replaceLoop ampAmp amp 0 ('&' :: '&' :: rest) = '&' :: replaceLoop ampAmp amp 0 rest := by
  simp [replaceLoop, ampAmp_eq, amp_eq, List.isPrefixOf]

theorem replaceLoop_lone (d : Char) (rest : QString) (hd : d ≠ '&') :
    replaceLoop ampAmp amp 0 ('&' :: d :: rest)
      = '&' :: replaceLoop ampAmp amp 0 (d :: rest) := by
  have hd2 : ¬ ('&' = d) := fun h => hd h.symm
  rw [replaceLoop]
  simp [ampAmp_eq, List.isPrefixOf, hd2]

theorem replaceLoop_single (c : Char) : replaceLoop ampAmp amp 0 [c] = [c] := by
  simp [replaceLoop, ampAmp_eq, List.isPrefixOf]

theorem replaceLoop_other (c : Char) (t : QString) (hc : c ≠ '&') :
    replaceLoop ampAmp amp 0 (c :: t) = c :: replaceLoop ampAmp amp 0 t := by
  have hc2 : ¬ ('&' = c) := fun h => hc h.symm
  rw [replaceLoop]
  simp [ampAmp_eq, List.isPrefixOf, hc2]

theorem replaceLoop_eq_stripSpec : ∀ text : QString,
    replaceLoop ampAmp amp 0 text = stripSpec true text := by
  intro text
  induction text using list_two_step with
  | h0 => simp [replaceLoop, stripSpec]
  | h1 c => simp [replaceLoop_single, stripSpec]
  | h2 c d rest ih1 ih2 =>
    by_cases hc : c = '&'
    · subst hc
      by_cases hd : d = '&'
      · subst hd
        simp [replaceLoop_pair, stripSpec, ih1]
      · simp [replaceLoop_lone d rest hd, stripSpec, hd, ih2]
    · simp [replaceLoop_other c _ hc, stripSpec, hc, ih2]

theorem QString_remove_nat (t : QString) (p : Nat) (hp : p < t.length) :
    QString_remove t (p : Int) 1 = t.take p ++ t.drop (p + 1) := by
  have h1 : ¬ ((p : Int) < 0) := by omega
  have h2 : (0 : Int) ≤ (p : Int) ∧ (p : Int) < (t.length : Int) := ⟨by omega, by omega⟩
  simp only [QString_remove, h1, if_false, h2, and_self, if_true, Int.toNat_ofNat]

theorem QString_remove_cons (c : Char) (t : QString) (p : Nat) (hp : p < t.length) :
    QString_remove (c :: t) ((p + 1 : Nat) : Int) 1 = c :: QString_remove t (p : Int) 1 := by
  rw [QString_remove_nat (c :: t) (p + 1) (by simpa using hp), QString_remove_nat t p hp]
  simp

theorem lt_length_of_getElem? {t : QString} {p : Nat} {c : Char} (h : t[p]? = some c) :
    p < t.length := by
  by_contra hlt
  rw [List.getElem?_eq_none (by omega)] at h
  cases h

/-- The text handed to `replace` in `qt_accStripAmp`, with the result of `qt_accAmpIndex`
replaced by the reading of the specification. -/
theorem strip_remove_eq : ∀ text : QString,
    replaceLoop ampAmp amp 0
      (if ampIndexSpec text 0 ≠ -1 then QString_remove text (ampIndexSpec text 0) 1 else text)
      = stripSpec false text := by
  intro text
  induction text using list_two_step with
  | h0 => simp [ampIndexSpec, replaceLoop, stripSpec]
  | h1 c => simp [ampIndexSpec, replaceLoop_single, stripSpec]
  | h2 c d rest ih1 ih2 =>
    by_cases hc : c = '&'
    · subst hc
      by_cases hd : d = '&'
      · subst hd
        have e : ampIndexSpec ('&' :: '&' :: rest) 0 = ampIndexSpec rest 2 := by
          simp [ampIndexSpec]
        have es : stripSpec false ('&' :: '&' :: rest) = '&' :: stripSpec false rest := by
          simp [stripSpec]
        rw [e, es]
        rcases ampIndexSpec_cases rest 2 with ⟨h, h0⟩ | ⟨p, h, h0, hp, _⟩
        · rw [h0] at ih1
          simp only [ne_eq, not_true_eq_false, if_false] at ih1
          simp only [h, ne_eq, not_true_eq_false, if_false]
          rw [replaceLoop_pair, ih1]
        · have hlt := lt_length_of_getElem? hp
          have hne : ¬ (((2 + p : Nat) : Int) = -1) := by omega
          have hne0 : ¬ ((p : Int) = -1) := by omega
          rw [h0] at ih1
          simp only [ne_eq, hne0, not_false_eq_true, if_true] at ih1
          simp only [h, ne_eq, hne, not_false_eq_true, if_true]
          rw [show (2 + p : Nat) = (p + 1) + 1 by omega,
            QString_remove_cons '&' ('&' :: rest) (p + 1) (by simpa using hlt),
            QString_remove_cons '&' rest p hlt, replaceLoop_pair, ih1]
      · have e : ampIndexSpec ('&' :: d :: rest) 0 = 0 := by simp [ampIndexSpec, hd]
        have es : stripSpec false ('&' :: d :: rest) = stripSpec true (d :: rest) := by
          simp [stripSpec, hd]
        rw [e, es, ← replaceLoop_eq_stripSpec]
        have hr := QString_remove_nat ('&' :: d :: rest) 0 (by simp)
        simp only [Nat.cast_zero] at hr
        rw [hr]
        simp
    · have e : ampIndexSpec (c :: d :: rest) 0 = ampIndexSpec (d :: rest) 1 := by
        simp [ampIndexSpec, hc]
      have es : stripSpec false (c :: d :: rest) = c :: stripSpec false (d :: rest) := by
        simp [stripSpec, hc]
      rw [e, es]
      rcases ampIndexSpec_cases (d :: rest) 1 with ⟨h, h0⟩ | ⟨p, h, h0, hp, _⟩
      · rw [h0] at ih2
        simp only [ne_eq, not_true_eq_false, if_false] at ih2
        simp only [h, ne_eq, not_true_eq_false, if_false]
        rw [replaceLoop_other c _ hc, ih2]
      · have hlt := lt_length_of_getElem? hp
        have hne : ¬ (((1 + p : Nat) : Int) = -1) := by omega
        have hne0 : ¬ ((p : Int) = -1) := by omega
        rw [h0] at ih2
        simp only [ne_eq, hne0, not_false_eq_true, if_true] at ih2
        simp only [h, ne_eq, hne, not_false_eq_true, if_true]
        rw [show (1 + p : Nat) = p + 1 by omega,
          QString_remove_cons c (d :: rest) p hlt, replaceLoop_other c _ hc, ih2]

theorem qt_accStripAmp_eq_spec (text : QString) :
    qt_accStripAmp text = stripSpec false text := by
  unfold qt_accStripAmp
  simp only [QString_replace_ampAmp, qt_accAmpIndex_eq_spec]
  exact strip_remove_eq text

/-- C3: stripping. `qt_accStripAmp` gives the display text of the specification
(`stripSpec`): the accelerator marker found by the parsing, if any, is left out and every
escaped doubled marker becomes one `&`. `&File` strips to `File`; `A && B` strips to
`A & B`, and no accelerator marker is found in it: `qt_accAmpIndex` is -1 and
`qt_accHotKey` is empty. -/
theorem qt_accStripAmp_display (text : QString) :
    qt_accStripAmp text = stripSpec false text ∧
    qt_accStripAmp "&File".data = "File".data ∧
    qt_accStripAmp "A && B".data = "A & B".data ∧
    qt_accAmpIndex "A && B".data = -1 ∧
    ∀ W : World, qt_accHotKey W "A && B".data = [] := by
  refine ⟨qt_accStripAmp_eq_spec text, by decide, by decide, by decide, ?_⟩
  intro W
  have h : qt_accAmpIndex "A && B".data = -1 := by decide
  simp [qt_accHotKey, h]

/-! ## Buddy resolution -/

theorem buddyLoop_only (W : World) (widget L : ObjId) (l : List ObjId)
    (hL : L ∈ l) (hlabel : (W.obj L).cls.inherits .QLabel = true)
    (hbuddy : (W.obj L).buddy = some widget)
    (honly : ∀ o ∈ l, (W.obj o).cls.inherits .QLabel = true →
      (W.obj o).buddy = some widget → o = L) :
    buddyLoop W widget l = some (W.obj L).text := by
  induction l with
  | nil => cases hL
  | cons o rest ih =>
    by_cases ho : (W.obj o).cls.inherits .QLabel = true ∧ (W.obj o).buddy = some widget
    · have hoL : o = L := honly o (List.mem_cons_self _ _) ho.1 ho.2
      subst hoL
      simp [buddyLoop, qobject_cast, hlabel, hbuddy]
    · have hne : o ≠ L := fun h => ho (h ▸ ⟨hlabel, hbuddy⟩)
      have hL2 : L ∈ rest := by
        rcases List.mem_cons.1 hL with h | h
        · exact absurd h.symm hne
        · exact h
      have hrec := ih hL2 (fun x hx => honly x (List.mem_cons_of_mem _ hx))
      unfold buddyLoop qobject_cast
      by_cases h1 : (W.obj o).cls.inherits .QLabel = true
      · have h2 : ¬ ((W.obj o).buddy = some widget) := fun h => ho ⟨h1, h⟩
        simp [h1, h2, hrec]
      · simp [h1, hrec]

theorem buddyLoop_none (W : World) (widget : ObjId) (l : List ObjId)
    (hnone : ∀ o ∈ l, (W.obj o).cls.inherits .QLabel = true →
      (W.obj o).buddy ≠ some widget) :
    buddyLoop W widget l = none := by
  induction l with
  | nil => rfl
  | cons o rest ih =>
    have hrec := ih (fun x hx => hnone x (List.mem_cons_of_mem _ hx))
    unfold buddyLoop qobject_cast
    by_cases h1 : (W.obj o).cls.inherits .QLabel = true
    · have h2 := hnone o (List.mem_cons_self _ _) h1
      simp [h1, h2, hrec]
    · simp [h1, hrec]

/-- C4: end-to-end buddy resolution. For a non-window widget with no name override, no
accelerator override and an empty accessible-name property, whose parent has among its
children the label `L` with text `&Name` as the only label that names the widget as buddy,
`text(Accelerator)` is the text of the Alt modifier followed by `N`, and `text(Name)` is
`Name`. -/
theorem text_buddy_label (W : World) (a : QAccessibleWidget) (p L : ObjId)
    (hwin : (W.obj a.object).isWindow = false)
    (hname : a.d.name = []) (hacc : a.d.accelerator = [])
    (hprop : (W.obj a.object).accessibleName = [])
    (hparent : parentWidget W a.object = some p)
    (hL : L ∈ (W.obj p).children)
    (hlabel : (W.obj L).cls.inherits .QLabel = true)
    (hbuddy : (W.obj L).buddy = some a.object)
    (htext : (W.obj L).text = "&Name".data)
    (honly : ∀ o ∈ (W.obj p).children, (W.obj o).cls.inherits .QLabel = true →
      (W.obj o).buddy = some a.object → o = L) :
    text W a .Accelerator = W.altKeySequence ++ ['N'] ∧ text W a .Name = "Name".data := by
  have hb : buddyString W (some a.object) = "&Name".data := by
    simp only [buddyString, hparent,
      buddyLoop_only W a.object L _ hL hlabel hbuddy honly, htext]
  have hidx : qt_accAmpIndex "&Name".data = 0 := by decide
  have hat : QString_at "&Name".data (0 + 1) = 'N' := by decide
  have hstrip : qt_accStripAmp "&Name".data = "Name".data := by decide
  have hhot : qt_accHotKey W "&Name".data = W.altKeySequence ++ ['N'] := by
    show (if qt_accAmpIndex "&Name".data ≠ -1 then
      W.altKeySequence ++ [QString_at "&Name".data (qt_accAmpIndex "&Name".data + 1)]
      else []) = _
    rw [hidx, if_pos (by decide), hat]
  constructor
  · have h : text W a .Accelerator = qt_accHotKey W (buddyString W (some a.object)) := by
      simp [text, hacc]
    rw [h, hb, hhot]
  · have h : text W a .Name = qt_accStripAmp (buddyString W (some a.object)) := by
      simp [text, hname, hprop, hwin]
    rw [h, hb, hstrip]

/-- C4, on the form: the line edit gets `Alt+N` and `Name` from its label. -/
theorem text_buddy_label_witness :
    text formWorld { object := 2 } .Accelerator = formWorld.altKeySequence ++ ['N'] ∧
    text formWorld { object := 2 } .Name = "Name".data :=
  text_buddy_label formWorld { object := 2 } 0 1 (by decide) (by decide) (by decide)
    (by decide) (by decide) (by decide) (by decide) (by decide) (by decide) (by decide)

/-- C5, refuted: in the group box titled `&Options`, the line edit has no accelerator
override, no sibling label names it as buddy and its parent is a group box, and
`text(Accelerator)` is `Alt+O`, taken from the title, not the empty text. -/
theorem text_accelerator_groupBox_counterexample :
    (({ object := 1 } : QAccessibleWidget).d.accelerator = [] ∧
      parentWidget groupWorld 1 = some 0 ∧
      (groupWorld.obj 0).cls = .QGroupBox ∧
      (∀ o ∈ (groupWorld.obj 0).children, (groupWorld.obj o).cls.inherits .QLabel = true →
        (groupWorld.obj o).buddy ≠ some 1)) ∧
    text groupWorld { object := 1 } .Accelerator = "Alt+O".data ∧
    text groupWorld { object := 1 } .Accelerator ≠ [] := by
  decide

/-- C5, amended: for a widget with no accelerator override, no sibling label naming it as
buddy and a group box as parent, `text(Accelerator)` is the hot key of the title of the
group box: empty exactly when the title has no accelerator marker, and otherwise the text of
the Alt modifier followed by the character after the marker. The title is the fallback
source of the name as well. -/
theorem text_accelerator_groupBox (W : World) (a : QAccessibleWidget) (p : ObjId)
    (hacc : a.d.accelerator = [])
    (hparent : parentWidget W a.object = some p)
    (hgroup : (W.obj p).cls.inherits .QGroupBox = true)
    (hnone : ∀ o ∈ (W.obj p).children, (W.obj o).cls.inherits .QLabel = true →
      (W.obj o).buddy ≠ some a.object) :
    text W a .Accelerator = qt_accHotKey W (W.obj p).title ∧
    (text W a .Accelerator = [] ↔ qt_accAmpIndex (W.obj p).title = -1) ∧
    (∀ k : Nat, qt_accAmpIndex (W.obj p).title = (k : Int) →
      ∃ c, (W.obj p).title[k + 1]? = some c ∧
        text W a .Accelerator = W.altKeySequence ++ [c]) ∧
    (a.d.name = [] → (W.obj a.object).accessibleName = [] →
      (W.obj a.object).isWindow = false →
      text W a .Name = qt_accStripAmp (W.obj p).title) := by
  have hb : buddyString W (some a.object) = (W.obj p).title := by
    simp only [buddyString, hparent, buddyLoop_none W a.object _ hnone, qobject_cast, hgroup,
      if_true]
  have ht : text W a .Accelerator = qt_accHotKey W (W.obj p).title := by
    simp [text, hacc, hb]
  refine ⟨ht, ?_, ?_, ?_⟩
  · rw [ht]
    unfold qt_accHotKey
    by_cases h : qt_accAmpIndex (W.obj p).title = -1 <;> simp [h]
  · intro k hk
    rw [qt_accAmpIndex_eq_spec] at hk
    rcases ampIndexSpec_cases (W.obj p).title 0 with ⟨h, _⟩ | ⟨q, _, hq, _, d, hd, _⟩
    · rw [hk] at h; omega
    · rw [← qt_accAmpIndex_eq_spec] at hk hq
      have hqk : q = k := by rw [hk] at hq; omega
      subst hqk
      refine ⟨d, hd, ?_⟩
      have hne : ¬ ((q : Int) = -1) := by omega
      have hat : QString_at (W.obj p).title ((q : Int) + 1) = d := by
        unfold QString_at
        rw [show ((q : Int) + 1).toNat = q + 1 by omega]
        simp [List.getD, hd]
      rw [ht]
      simp [qt_accHotKey, hk, hne, hat]
  · intro hname hprop hwin
    simp [text, hname, hprop, hwin, hb]

/-- C5 amended, in the group box titled `&Options`. -/
theorem text_accelerator_groupBox_witness :
    text groupWorld { object := 1 } .Accelerator
      = qt_accHotKey groupWorld (groupWorld.obj 0).title :=
  (text_accelerator_groupBox groupWorld { object := 1 } 0 (by decide) (by decide)
    (by decide) (by decide)).1

/-! ## The Controlled relation -/

theorem receiversLoop_eq (W : World) (a : QAccessibleWidget) (sigs : List QString)
    (acc : List ObjId) :
    receiversLoop W a sigs acc = acc ++ sigs.flatMap (W.receiverList a.object) := by
  induction sigs generalizing acc with
  | nil => simp [receiversLoop]
  | cons sig rest ih => simp [receiversLoop, ih]

theorem controlledLoop_eq (W : World) (l : List ObjId) (rels : List RelationEntry) :
    controlledLoop W l rels = rels ++ l.filterMap (fun r =>
      (W.queryAccessibleInterface r).map (fun i => (some i, Relation.Controlled))) := by
  induction l generalizing rels with
  | nil => simp [controlledLoop]
  | cons r rest ih =>
    unfold controlledLoop
    cases h : W.queryAccessibleInterface r with
    | none => simp [h, ih]
    | some i => simp [h, ih]

/-- C6, refuted: the line edit is the one receiver of the two controlling signals of the
push button, it is not the push button and it has an interface, and
`relations(Controlled)` holds its entry twice. -/
theorem relations_controlled_counterexample :
    signalWorld.receiverList 0 "clicked()".data = [1] ∧
    signalWorld.receiverList 0 "pressed()".data = [1] ∧
    relations signalWorld signalButton RelationFlags.Controlled
      = some [(some { object := 1 }, Relation.Controlled),
              (some { object := 1 }, Relation.Controlled)] := by
  decide

/-- C6, amended: `relations(Controlled)` always returns, and its entries are, in order, one
`(interface, Controlled)` for every occurrence of a receiver in the receiver lists of the
registered controlling signals (taken in registration order) that is not the wrapped widget
and has an interface. So a receiver has an entry exactly when it is connected to at least
one registered controlling signal, is not the wrapped widget and has an interface; the
wrapped widget never has one; and a receiver has as many entries as it has occurrences. -/
theorem relations_controlled (W : World) (a : QAccessibleWidget) :
    relations W a RelationFlags.Controlled
      = some ((((a.d.primarySignals.flatMap (W.receiverList a.object)).filter
          (fun r => decide (r ≠ a.object))).filterMap W.queryAccessibleInterface).map
            (fun i => (some i, Relation.Controlled))) ∧
    ∀ e : RelationEntry,
      (∃ rels, relations W a RelationFlags.Controlled = some rels ∧ e ∈ rels) ↔
      ∃ r sig i, sig ∈ a.d.primarySignals ∧ r ∈ W.receiverList a.object sig ∧
        r ≠ a.object ∧ W.queryAccessibleInterface r = some i ∧
        e = (some i, Relation.Controlled) := by
  have h : relations W a RelationFlags.Controlled
      = some ((((a.d.primarySignals.flatMap (W.receiverList a.object)).filter
          (fun r => decide (r ≠ a.object))).filterMap W.queryAccessibleInterface).map
            (fun i => (some i, Relation.Controlled))) := by
    simp only [relations, RelationFlags.Controlled, relationsControlled, receiversLoop_eq,
      controlledLoop_eq, QList_removeAll, List.nil_append, List.map_filterMap]
    simp
  refine ⟨h, ?_⟩
  intro e
  rw [h]
  constructor
  · rintro ⟨rels, hrels, he⟩
    cases hrels
    simp only [List.mem_map, List.mem_filterMap, List.mem_filter, List.mem_flatMap,
      decide_eq_true_eq] at he
    obtain ⟨i, ⟨r, ⟨⟨sig, hsig, hr⟩, hne⟩, hi⟩, rfl⟩ := he
    exact ⟨r, sig, i, hsig, hr, hne, hi, rfl⟩
  · rintro ⟨r, sig, i, hsig, hr, hne, hi, rfl⟩
    refine ⟨_, rfl, ?_⟩
    simp only [List.mem_map, List.mem_filterMap, List.mem_filter, List.mem_flatMap,
      decide_eq_true_eq]
    exact ⟨i, ⟨r, ⟨⟨sig, hsig, hr⟩, hne⟩, hi⟩, rfl⟩

/-! ## State -/

/-- C7, refuted: the push button of `hiddenButtonWorld` is enabled, focusable and not
focused, and `state()` sets `invisible` next to `focusable`, because the button is not
shown. -/
theorem state_pushButton_counterexample :
    ((hiddenButtonWorld.obj 1).cls = .QPushButton ∧
      (hiddenButtonWorld.obj 1).isEnabled = true ∧
      (hiddenButtonWorld.obj 1).focusPolicy ≠ .NoFocus ∧
      (hiddenButtonWorld.obj 1).hasFocus = false) ∧
    state hiddenButtonWorld { object := 1 } = { invisible := true, focusable := true } ∧
    (state hiddenButtonWorld { object := 1 }).invisible = true := by
  decide

/-- C7, amended: `state()` of a push button that is enabled, focusable, not focused, shown
(`WA_WState_Visible` set) and not a window has `focusable` set and every other flag
(invisible, focused, disabled, movable, sizeable, active) cleared. -/
theorem state_pushButton (W : World) (a : QAccessibleWidget)
    (_hcls : (W.obj a.object).cls = .QPushButton)
    (henabled : (W.obj a.object).isEnabled = true)
    (hfocusable : (W.obj a.object).focusPolicy ≠ .NoFocus)
    (hfocus : (W.obj a.object).hasFocus = false)
    (hvisible : (W.obj a.object).wstateVisible = true)
    (hwin : (W.obj a.object).isWindow = false) :
    state W a = { invisible := false, focusable := true, focused := false, disabled := false,
                  movable := false, sizeable := false, active := false } := by
  simp [state, henabled, hfocusable, hfocus, hvisible, hwin]

/-- C7 amended, on a push button that is shown in `signalWorld`. -/
theorem state_pushButton_witness :
    state signalWorld signalButton = { focusable := true } :=
  state_pushButton signalWorld signalButton (by decide) (by decide) (by decide) (by decide)
    (by decide) (by decide)

/-! ## Name of a window -/

/-- C8, refuted: the line edit of `titledChildWorld` has the window title `Doc`, is not
minimized, has no name override and an empty accessible-name property, and `text(Name)` is
`Name`, the text of its buddy label, not the processed window title `Doc`: the line edit
is not a window. -/
theorem text_name_windowTitle_counterexample :
    ((titledChildWorld.obj 2).windowTitle = "Doc".data ∧
      (titledChildWorld.obj 2).isMinimized = false ∧
      ({ object := 2 } : QAccessibleWidget).d.name = [] ∧
      (titledChildWorld.obj 2).accessibleName = []) ∧
    text titledChildWorld { object := 2 } .Name = "Name".data ∧
    titledChildWorld.setWindowTitle_helperHelper (titledChildWorld.obj 2).windowTitle 2
      = "Doc".data ∧
    text titledChildWorld { object := 2 } .Name
      ≠ titledChildWorld.setWindowTitle_helperHelper (titledChildWorld.obj 2).windowTitle 2 := by
  decide

/-- C8, amended: for a widget that is a window (`isWindow()`) and not minimized, when the
adapter has no name override and the accessible-name property of the widget is empty,
`text(Name)` is the window title passed through the window-title helper. -/
theorem text_name_windowTitle (W : World) (a : QAccessibleWidget)
    (hwin : (W.obj a.object).isWindow = true)
    (hmin : (W.obj a.object).isMinimized = false)
    (hname : a.d.name = [])
    (hprop : (W.obj a.object).accessibleName = []) :
    text W a .Name = W.setWindowTitle_helperHelper (W.obj a.object).windowTitle a.object := by
  simp [text, hname, hprop, hwin, hmin]

/-- C8 amended, on the tool window of `toolWindowWorld`: `text(Name)` is the processed
window title `Report - Editor`, which differs from the raw title `Report`, from the
processed icon text `Icon - Editor` and from the stripped text `Name` of the label that
names the tool window as buddy. -/
theorem text_name_windowTitle_witness :
    text toolWindowWorld { object := 2 } .Name
      = toolWindowWorld.setWindowTitle_helperHelper (toolWindowWorld.obj 2).windowTitle 2 ∧
    text toolWindowWorld { object := 2 } .Name = "Report - Editor".data ∧
    (toolWindowWorld.obj 2).windowTitle = "Report".data ∧
    toolWindowWorld.setWindowTitle_helperHelper (toolWindowWorld.obj 2).windowIconText 2
      = "Icon - Editor".data ∧
    qt_accStripAmp (buddyString toolWindowWorld (some 2)) = "Name".data :=
  ⟨text_name_windowTitle toolWindowWorld { object := 2 } (by decide) (by decide) (by decide)
      (by decide),
    by decide, by decide, by decide, by decide⟩

/-! ## Focus child -/

theorem isAncestor_sound (W : World) (obj : ObjId) :
    ∀ (fuel : Nat) (c : ObjId), isAncestor W obj fuel (some c) = some true →
      Reaches W c obj := by
  intro fuel
  induction fuel with
  | zero => intro c h; simp [isAncestor] at h
  | succ n ih =>
    intro c h
    unfold isAncestor at h
    by_cases hc : c = obj
    · subst hc; exact Reaches.self _
    · simp only [hc, if_false] at h
      cases hp : (W.obj c).parent with
      | none =>
        rw [hp] at h
        cases n <;> simp [isAncestor] at h
      | some p =>
        rw [hp] at h
        exact Reaches.step hp (ih p h)

theorem isAncestor_rooted (W : World) (obj : ObjId) :
    ∀ (c : ObjId) (n : Nat), Rooted W c n → ∀ fuel, n < fuel →
      ∃ b, isAncestor W obj fuel (some c) = some b ∧ (b = true ↔ Reaches W c obj) := by
  intro c n hr
  induction hr with
  | @root c hp =>
    intro fuel hfuel
    obtain ⟨k, rfl⟩ : ∃ k, fuel = k + 2 := ⟨fuel - 2, by omega⟩
    by_cases hc : c = obj
    · subst hc
      exact ⟨true, by simp [isAncestor], by simp [Reaches.self]⟩
    · refine ⟨false, by simp [isAncestor, hc, hp], ?_⟩
      constructor
      · intro h; cases h
      · intro h
        cases h with
        | self => exact absurd rfl hc
        | step hp2 _ => rw [hp] at hp2; cases hp2
  | @step c p n hp _ ih =>
    intro fuel hfuel
    obtain ⟨k, rfl⟩ : ∃ k, fuel = k + 1 := ⟨fuel - 1, by omega⟩
    by_cases hc : c = obj
    · subst hc
      exact ⟨true, by simp [isAncestor], by simp [Reaches.self]⟩
    · obtain ⟨b, hb, hiff⟩ := ih k (by omega)
      refine ⟨b, by simp [isAncestor, hc, hp, hb], ?_⟩
      constructor
      · intro h; exact Reaches.step hp (hiff.1 h)
      · intro h
        cases h with
        | self => exact absurd rfl hc
        | step hp2 hr2 =>
          rw [hp] at hp2
          cases hp2
          exact hiff.2 hr2

/-- C9: `focusChild()`. When the wrapped widget does not hold focus and has no focus
target, the result is the null interface. When it does not hold focus and the parent chain
of its focus target ends without reaching the wrapped widget (the target lies outside the
subtree of the wrapped widget), the walk of `isAncestor` ends and the result is the null
interface. Whenever the parent chain of the focus target ends, `focusChild()` returns.
Whenever it returns an interface, the interface is what the factory gives for the wrapped
widget itself or for an object whose parent chain reaches the wrapped widget. -/
theorem focusChild_subtree (W : World) (a : QAccessibleWidget) :
    (∀ fuel, (W.obj a.object).hasFocus = false → (W.obj a.object).focusWidget = none →
      focusChild W fuel a = some none) ∧
    (∀ fw n fuel, (W.obj a.object).hasFocus = false →
      (W.obj a.object).focusWidget = some fw → Rooted W fw n → ¬ Reaches W fw a.object →
      n < fuel → focusChild W fuel a = some none) ∧
    (∀ fw n fuel, (W.obj a.object).focusWidget = some fw → Rooted W fw n → n < fuel →
      ∃ r, focusChild W fuel a = some r) ∧
    (∀ fuel i, focusChild W fuel a = some (some i) →
      ∃ o, W.queryAccessibleInterface o = some i ∧
        (o = a.object ∨ Reaches W o a.object)) := by
  refine ⟨?_, ?_, ?_, ?_⟩
  · intro fuel hf hfw
    simp [focusChild, hf, hfw]
  · intro fw n fuel hf hfw hroot hout hfuel
    obtain ⟨b, hb, hiff⟩ := isAncestor_rooted W a.object fw n hroot fuel hfuel
    have hbf : b = false := by
      cases b with
      | false => rfl
      | true => exact absurd (hiff.1 rfl) hout
    subst hbf
    have hne : fw ≠ a.object := fun h => hout (h ▸ Reaches.self _)
    simp [focusChild, hf, hfw, hb, hne]
  · intro fw n fuel hfw hroot hfuel
    obtain ⟨b, hb, _⟩ := isAncestor_rooted W a.object fw n hroot fuel hfuel
    cases hf : (W.obj a.object).hasFocus with
    | true => exact ⟨W.queryAccessibleInterface a.object, by simp [focusChild, hf]⟩
    | false =>
      cases hc : (b || decide (fw = a.object)) with
      | true =>
        exact ⟨W.queryAccessibleInterface fw, by simp only [focusChild, hf, hfw, hb, hc]; simp⟩
      | false =>
        exact ⟨none, by simp only [focusChild, hf, hfw, hb, hc]; simp⟩
  · intro fuel i h
    cases hf : (W.obj a.object).hasFocus with
    | true =>
      simp only [focusChild, hf, if_true, Option.some.injEq] at h
      exact ⟨a.object, h, Or.inl rfl⟩
    | false =>
      cases hfw : (W.obj a.object).focusWidget with
      | none => simp [focusChild, hf, hfw] at h
      | some fw =>
        cases hanc : isAncestor W a.object fuel (some fw) with
        | none => simp [focusChild, hf, hfw, hanc] at h
        | some b =>
          cases hc : (b || decide (fw = a.object)) with
          | false =>
            simp only [focusChild, hf, hfw, hanc, hc] at h
            simp at h
          | true =>
            simp only [focusChild, hf, hfw, hanc, hc] at h
            simp only [Bool.false_eq_true, if_false, if_true, Option.some.injEq] at h
            refine ⟨fw, h, ?_⟩
            simp only [Bool.or_eq_true, decide_eq_true_eq] at hc
            rcases hc with hb | hb
            · subst hb
              exact Or.inr (isAncestor_sound W a.object fuel fw hanc)
            · exact Or.inl hb

/-- C9, in `focusWorld`: window 0 does not hold focus and its focus target, object 3, is
a child of window 2; with fuel for three iterations `focusChild()` is the null
interface. -/
theorem focusChild_subtree_witness : focusChild focusWorld 3 { object := 0 } = some none :=
  (focusChild_subtree focusWorld { object := 0 }).2.1 3 2 3 (by decide) (by decide)
    (Rooted.step (p := 2) (by decide) (Rooted.root (by decide)))
    (by
      intro h
      cases h with
      | step hp hr =>
        have hp2 : (focusWorld.obj 3).parent = some 2 := by decide
        rw [hp2] at hp
        cases hp
        cases hr with
        | step hq _ =>
          have hq2 : (focusWorld.obj 2).parent = none := by decide
          rw [hq2] at hq
          cases hq)
    (by decide)

/-! ## Child index out of range -/

theorem childQueries_fst (W : World) (a : QAccessibleWidget) (index : Int) :
    (childQueries W a index).1 = child W a index := by
  unfold childQueries child
  by_cases h : 0 ≤ index ∧ index < ((childWidgets W a.object).length : Int)
  · simp only [h, and_self, if_true]
    cases (childWidgets W a.object)[index.toNat]? <;> rfl
  · simp only [h, if_false]

/-- C11: for every index below 0 and every index at or above `childCount()`, `child(index)`
returns the null interface (a result, not an error), and the call hands no object to the
interface factory; the traced call and `child` agree on the result at every index. -/
theorem child_out_of_range (W : World) (a : QAccessibleWidget) (index : Int)
    (h : index < 0 ∨ childCount W a ≤ index) :
    child W a index = none ∧
    childQueries W a index = (none, []) ∧
    (childQueries W a index).1 = child W a index := by
  have hnot : ¬ (0 ≤ index ∧ index < ((childWidgets W a.object).length : Int)) := by
    unfold childCount at h
    omega
  refine ⟨?_, ?_, childQueries_fst W a index⟩
  · simp only [child, hnot, if_false]
  · simp only [childQueries, hnot, if_false]

/-- C11, on the form, which has two eligible children: `child(2)` is the null interface
and the factory is not queried. -/
theorem child_out_of_range_witness :
    child formWorld { object := 0 } 2 = none ∧
    childQueries formWorld { object := 0 } 2 = (none, []) ∧
    (childQueries formWorld { object := 0 } 2).1 = child formWorld { object := 0 } 2 :=
  child_out_of_range formWorld { object := 0 } 2 (Or.inr (by decide))

end QAccessibleWidgetModel
